import Mathlib

/-!
Verification of the storage-manager cleanup engine
(`docker/storage-manager/src`): the cleanup algorithms (MaxSize,
RemoveBeforeDate, KeepNLatest), the registration store and the scheduler
tick loop, shallowly embedded in Lean.

Conventions of the embedding:
* Python `dict` parameters become association lists of `PValue`, a small
  model of the Python values used by the code (None, int, str, bool, and
  an already-parsed datetime for `before_date`; ISO-8601 string parsing
  by `datetime.fromisoformat` is abstracted into the `vTime` constructor).
* Filesystem files become `FileEntry` records (identity, size, mtime,
  ctime); a target path is a `PathState` (missing, a single file, or a
  directory holding the recursively enumerated regular files).
* `raise ValueError(...)` becomes `Except.error`; functions that can
  raise return `Except String _`.
* Python's stable `list.sort(key=..., reverse=...)` is modelled by
  `List.insertionSort` with the corresponding total preorder: both are
  stable sorts, and stable sorts for a total preorder agree.
* Deleting a file is recorded by returning the list of deleted entries
  next to the `CleanupResult`; what remains on disk is the original
  listing filtered by deleted identity.
-/

namespace StorageManager

/-- A regular file as seen by the scanner: `path` is its identity
(distinct files have distinct paths), `size` its byte size (`st_size`),
`mtime`/`ctime` its modification/creation timestamps (`st_mtime` /
`st_ctime`, modelled as integers since the code only compares them). -/
structure FileEntry where
  path : Nat
  size : Nat
  mtime : Int
  ctime : Int
deriving Repr, DecidableEq

/-- Model of the Python values appearing in policy `params` dicts. -/
inductive PValue where
  | vNone
  | vInt (n : Int)
  | vStr (s : String)
  | vBool (b : Bool)
  | vTime (t : Int)
deriving Repr, DecidableEq

/-- Python truthiness for the modelled values. -/
def truthy : PValue → Bool
  | .vNone => false
  | .vInt n => n != 0
  | .vStr s => s != ""
  | .vBool b => b
  | .vTime _ => true

/-- Python `a or b`. -/
def pyOr (a b : PValue) : PValue := if truthy a then a else b

/-- Python `str.lower()` (character-wise, as the code only lowers ASCII
parameter strings). -/
def strLower (s : String) : String := ⟨s.data.map Char.toLower⟩

/-- Python `str.strip()`: drop whitespace from both ends. -/
def strTrim (s : String) : String :=
  ⟨((s.data.dropWhile Char.isWhitespace).reverse.dropWhile Char.isWhitespace).reverse⟩

/-- Python `int(x)`: ints pass through, bools coerce, strings parse or
raise, `None` and datetimes raise `TypeError`. -/
def pyInt : PValue → Except String Int
  | .vInt n => .ok n
  | .vBool b => .ok (if b then 1 else 0)
  | .vStr s =>
    match (strTrim s).toInt? with
    | some n => .ok n
    | none => .error "invalid literal for int()"
  | .vNone => .error "int() argument must not be None"
  | .vTime _ => .error "int() argument must not be a datetime"

/-- Python `str(x)`. -/
def pyStr : PValue → String
  | .vNone => "None"
  | .vInt n => toString n
  | .vStr s => s
  | .vBool b => if b then "True" else "False"
  | .vTime t => toString t

/-- A policy `params` dict. -/
abbrev Params := List (String × PValue)

/-- `params.get(k)`: the stored value, or `None` when the key is absent. -/
def Params.get (p : Params) (k : String) : PValue :=
  match p.lookup k with
  | some v => v
  | none => .vNone

/-- Outcome of one `clean` call (`algorithms/base.py`). -/
structure CleanupResult where
  cleaned : Bool
  files_removed : Nat
  bytes_freed : Nat
deriving Repr, DecidableEq

/-- A target path: nonexistent, a single regular file, or a directory
whose recursive regular-file listing is `entries`. -/
inductive PathState where
  | missing
  | file (entry : FileEntry)
  | dir (entries : List FileEntry)
deriving Repr, DecidableEq

/-- `iter_files` (`algorithms/utils.py`, also `_iter_files` in
`max_size.py` and `remove_before_date.py`): a single file lists as
itself, a missing path as nothing, a directory as its recursive
regular-file listing. -/
def iter_files : PathState → List FileEntry
  | .file e => [e]
  | .missing => []
  | .dir es => es

/-- `VALID_SORT_BY_VALUES` (`algorithms/utils.py`). -/
def VALID_SORT_BY_VALUES : List String := ["mtime", "ctime", "size"]

/-- `validate_sort_by` (`algorithms/utils.py`): lower-case and strip,
then require membership in the allowed set, returning the normalized
value. -/
def validate_sort_by (sort_by : String) : Except String String :=
  let normalized := strTrim (strLower (if sort_by = "" then "mtime" else sort_by))
  if VALID_SORT_BY_VALUES.contains normalized then .ok normalized
  else .error ("Invalid sort_by " ++ sort_by)

/-- `_total_size`: sum of the sizes of the listed files. -/
def totalSize (files : List FileEntry) : Nat :=
  (files.map FileEntry.size).sum

/-- Ascending-mtime order used by `max_size.py` (Python stable sort). -/
def leMtime (a b : FileEntry) : Prop := a.mtime ≤ b.mtime

/-- Ascending-ctime order used by `max_size.py`. -/
def leCtime (a b : FileEntry) : Prop := a.ctime ≤ b.ctime

/-- Descending-size order (`reverse=True` on the size key). -/
def geSize (a b : FileEntry) : Prop := b.size ≤ a.size

/-- Descending-mtime order (`reverse=True`, `keep_n_latest.py`). -/
def geMtime (a b : FileEntry) : Prop := b.mtime ≤ a.mtime

/-- Descending-ctime order (`reverse=True`, `keep_n_latest.py`). -/
def geCtime (a b : FileEntry) : Prop := b.ctime ≤ a.ctime

instance : DecidableRel leMtime := fun a b => Int.decLe a.mtime b.mtime
instance : DecidableRel leCtime := fun a b => Int.decLe a.ctime b.ctime
instance : DecidableRel geSize := fun a b => Nat.decLe b.size a.size
instance : DecidableRel geMtime := fun a b => Int.decLe b.mtime a.mtime
instance : DecidableRel geCtime := fun a b => Int.decLe b.ctime a.ctime

instance : IsTotal FileEntry leMtime := ⟨fun a b => Int.le_total a.mtime b.mtime⟩
instance : IsTrans FileEntry leMtime := ⟨fun _ _ _ h₁ h₂ => le_trans h₁ h₂⟩
instance : IsTotal FileEntry leCtime := ⟨fun a b => Int.le_total a.ctime b.ctime⟩
instance : IsTrans FileEntry leCtime := ⟨fun _ _ _ h₁ h₂ => le_trans h₁ h₂⟩
instance : IsTotal FileEntry geSize := ⟨fun a b => Nat.le_total b.size a.size⟩
instance : IsTrans FileEntry geSize := ⟨fun _ _ _ h₁ h₂ => le_trans h₂ h₁⟩
instance : IsTotal FileEntry geMtime := ⟨fun a b => Int.le_total b.mtime a.mtime⟩
instance : IsTrans FileEntry geMtime := ⟨fun _ _ _ h₁ h₂ => le_trans h₂ h₁⟩
instance : IsTotal FileEntry geCtime := ⟨fun a b => Int.le_total b.ctime a.ctime⟩
instance : IsTrans FileEntry geCtime := ⟨fun _ _ _ h₁ h₂ => le_trans h₂ h₁⟩

/-- The file ordering of `MaxSizeAlgorithm.clean`: `size` sorts
descending by size, `ctime` ascending by ctime, anything else (the
`else` branch, hence also the default `mtime`) ascending by mtime. -/
def maxSizeSortFiles (sort_by : String) (files : List FileEntry) : List FileEntry :=
  if sort_by = "size" then List.insertionSort geSize files
  else if sort_by = "ctime" then List.insertionSort leCtime files
  else List.insertionSort leMtime files

/-- The deletion loop of `MaxSizeAlgorithm.clean`: walk the sorted list,
stopping once the running total is at most `max_bytes`, otherwise
deleting the head, decrementing the running total and accumulating
count and freed bytes. Returns (removed_count, freed, deleted files). -/
def maxSizeLoop (max_bytes : Int) : List FileEntry → Int → Nat × Nat × List FileEntry
  | [], _ => (0, 0, [])
  | f :: rest, current =>
    if current ≤ max_bytes then (0, 0, [])
    else
      let r := maxSizeLoop max_bytes rest (current - (f.size : Int))
      (r.1 + 1, r.2.1 + f.size, f :: r.2.2)

/-- `MaxSizeAlgorithm.should_clean` (`max_size.py`): list the files,
coerce `max_bytes` (defaulting falsy values to 0), and test the chained
comparison `total > max_bytes > 0`. No validation error is raised. -/
def MaxSizeAlgorithm.should_clean (st : PathState) (params : Params) :
    Except String Bool := do
  let files := iter_files st
  let max_bytes ← pyInt (pyOr (params.get "max_bytes") (.vInt 0))
  .ok (decide (max_bytes < (totalSize files : Int) ∧ 0 < max_bytes))

/-- `MaxSizeAlgorithm.clean` (`max_size.py`): reject `max_bytes ≤ 0`,
lower-case `sort_by` without validating it, return a no-op result on an
empty listing, otherwise sort and run the deletion loop starting from
the current total size. Returns the result together with the deleted
entries. -/
def MaxSizeAlgorithm.clean (st : PathState) (params : Params) :
    Except String (CleanupResult × List FileEntry) := do
  let max_bytes ← pyInt (pyOr (params.get "max_bytes") (.vInt 0))
  if max_bytes ≤ 0 then .error "max_bytes must be greater than 0"
  else
    let sort_by := strLower (pyStr (pyOr (params.get "sort_by") (.vStr "mtime")))
    let files := iter_files st
    if files = [] then .ok (⟨false, 0, 0⟩, [])
    else
      let sorted := maxSizeSortFiles sort_by files
      let r := maxSizeLoop max_bytes sorted (totalSize sorted : Int)
      .ok (⟨decide (0 < r.1), r.1, r.2.1⟩, r.2.2)

/-- The files still on disk after deleting `deleted`: the original
listing filtered by deleted identity. -/
def remainingAfter (files deleted : List FileEntry) : List FileEntry :=
  files.filter (fun f => deleted.all (fun d => d.path != f.path))

/-- The file ordering of `KeepNLatestAlgorithm.clean`
(`keep_n_latest.py`): `ctime` sorts descending by ctime, `size`
descending by size, anything else (the `else` branch, in particular the
default `mtime`) descending by mtime; `reverse=True` throughout. -/
def keepNSortFiles (sort_by : String) (files : List FileEntry) : List FileEntry :=
  if sort_by = "ctime" then List.insertionSort geCtime files
  else if sort_by = "size" then List.insertionSort geSize files
  else List.insertionSort geMtime files

/-- `KeepNLatestAlgorithm.should_clean` (`keep_n_latest.py`): coerce
`keep_count` (falsy values default to 0), reject negatives, validate
`sort_by`, then test `len(files) > keep_count`. -/
def KeepNLatestAlgorithm.should_clean (st : PathState) (params : Params) :
    Except String Bool := do
  let keep_count ← pyInt (pyOr (params.get "keep_count") (.vInt 0))
  if keep_count < 0 then .error "keep_count must be >= 0"
  else do
    let _ ← validate_sort_by (pyStr (pyOr (params.get "sort_by") (.vStr "mtime")))
    .ok (decide (keep_count < ((iter_files st).length : Int)))

/-- `KeepNLatestAlgorithm.clean` (`keep_n_latest.py`): same validation
as `should_clean`; on an empty listing return a no-op result; otherwise
sort descending, keep the first `keep_count` entries and delete the
slice `files[keep_count:]`, counting files and summing their sizes.
Returns the result together with the deleted entries. -/
def KeepNLatestAlgorithm.clean (st : PathState) (params : Params) :
    Except String (CleanupResult × List FileEntry) := do
  let keep_count ← pyInt (pyOr (params.get "keep_count") (.vInt 0))
  if keep_count < 0 then .error "keep_count must be >= 0"
  else do
    let sort_by ← validate_sort_by (pyStr (pyOr (params.get "sort_by") (.vStr "mtime")))
    let files := iter_files st
    if files = [] then .ok (⟨false, 0, 0⟩, [])
    else
      let to_delete := (keepNSortFiles sort_by files).drop keep_count.toNat
      .ok (⟨decide (0 < to_delete.length), to_delete.length, totalSize to_delete⟩, to_delete)

/-- `_parse_threshold` (`remove_before_date.py`): a truthy `before_date`
wins (its ISO-8601 parse is modelled by the pre-parsed `vTime`
timestamp; any other truthy value fails to parse); otherwise a
`max_age_days` that is not `None` yields `now - days` (a day being
86400 seconds); otherwise a configuration error. -/
def parse_threshold (params : Params) (now : Int) : Except String Int :=
  let before_date := params.get "before_date"
  if truthy before_date then
    match before_date with
    | .vTime t => .ok t
    | _ => .error "Invalid isoformat string"
  else
    match params.get "max_age_days" with
    | .vNone => .error "Either before_date or max_age_days must be provided"
    | v => do
      let days ← pyInt v
      .ok (now - days * 86400)

/-- The scan-and-delete loop of `RemoveBeforeDateAlgorithm.clean`:
delete each file whose mtime is strictly before the threshold,
accumulating count, freed bytes and the deleted entries. -/
def removeBeforeLoop (threshold : Int) : List FileEntry → Nat × Nat × List FileEntry
  | [] => (0, 0, [])
  | f :: rest =>
    let r := removeBeforeLoop threshold rest
    if f.mtime < threshold then (r.1 + 1, r.2.1 + f.size, f :: r.2.2)
    else r

/-- `RemoveBeforeDateAlgorithm.should_clean` (`remove_before_date.py`):
resolve the threshold, then report whether any file's modification time
is strictly before it. -/
def RemoveBeforeDateAlgorithm.should_clean (st : PathState) (params : Params)
    (now : Int) : Except String Bool := do
  let threshold ← parse_threshold params now
  .ok ((iter_files st).any (fun f => decide (f.mtime < threshold)))

/-- `RemoveBeforeDateAlgorithm.clean` (`remove_before_date.py`):
resolve the threshold and delete exactly the files modified strictly
before it. Returns the result together with the deleted entries. -/
def RemoveBeforeDateAlgorithm.clean (st : PathState) (params : Params)
    (now : Int) : Except String (CleanupResult × List FileEntry) := do
  let threshold ← parse_threshold params now
  let r := removeBeforeLoop threshold (iter_files st)
  .ok (⟨decide (0 < r.1), r.1, r.2.1⟩, r.2.2)

/-- One row of the `registrations` table (`models.py`): primary key
`(volume_name, path)`; timestamps modelled as integers. -/
structure Registration where
  volume_name : String
  path : String
  algorithm : String
  params_json : String
  description : Option String
  created_at : Int
  updated_at : Int
  last_cleaned : Option Int
  files_removed_last_run : Int
deriving Repr, DecidableEq

/-- Key equality on the composite primary key. -/
def regKeyIs (volume_name path : String) (r : Registration) : Bool :=
  r.volume_name = volume_name ∧ r.path = path

/-- `upsert_registration` (`models.py`): `INSERT ... ON CONFLICT
(volume_name, path) DO UPDATE` — an existing row keeps `created_at`,
`last_cleaned` and `files_removed_last_run` and takes the new
`algorithm`, `params_json`, `description` and `updated_at`; otherwise a
fresh row is inserted with `created_at = updated_at = now`, a null
`last_cleaned` and a zero run counter. -/
def upsert_registration (db : List Registration) (volume_name path algorithm : String)
    (params_json : String) (description : Option String) (now : Int) :
    List Registration :=
  if db.any (regKeyIs volume_name path) then
    db.map (fun r =>
      if regKeyIs volume_name path r then
        { r with algorithm := algorithm, params_json := params_json,
                 description := description, updated_at := now }
      else r)
  else
    db ++ [{ volume_name := volume_name, path := path, algorithm := algorithm,
             params_json := params_json, description := description,
             created_at := now, updated_at := now, last_cleaned := none,
             files_removed_last_run := 0 }]

/-- The algorithm names registered in `ALGORITHM_REGISTRY`
(`algorithms/__init__.py`). -/
def ALGORITHM_REGISTRY : List String := ["max_size", "remove_before_date", "keep_n_latest"]

/-- A `mark_cleanup_result` store write as the scheduler issues it. -/
structure WriteRecord where
  volume_name : String
  path : String
  files_removed : Nat
deriving Repr, DecidableEq

/-- One registration as the scheduler tick sees it, with the outcome of
each effectful step it would perform recorded as data: the resolver
result (`none` when the volume or mountpoint is unavailable), the
`should_clean` call, the `clean` call and the `mark_cleanup_result`
store write, each an `Except` since any of them may raise. -/
structure TickReg where
  volume_name : String
  path : String
  algorithm : String
  resolved : Except String (Option String)
  shouldRes : Except String Bool
  cleanRes : Except String CleanupResult
  writeRes : Except String Unit
deriving Repr

/-- The body of the per-registration loop of `StorageScheduler.run_once`
(`scheduler.py`), without its `try`/`except`: skip unknown algorithms
and unresolved targets (`ok none`), otherwise run `should_clean`, and
when it holds run `clean` and persist the outcome; any step may raise
(`error`). -/
def processOne (reg : TickReg) : Except String (Option WriteRecord) := do
  if ALGORITHM_REGISTRY.contains reg.algorithm = false then .ok none
  else do
    let target? ← reg.resolved
    match target? with
    | none => .ok none
    | some _ => do
      let b ← reg.shouldRes
      if b then do
        let result ← reg.cleanRes
        let _ ← reg.writeRes
        .ok (some ⟨reg.volume_name, reg.path, result.files_removed⟩)
      else .ok none

/-- `StorageScheduler.run_once`: iterate the registrations, wrapping
each one's processing in `try`/`except Exception` — a raise is logged
and the loop continues. The collected `WriteRecord`s are the store
writes performed during the tick. -/
def run_once : List TickReg → Except String (List WriteRecord)
  | [] => .ok []
  | reg :: rest => do
    let w? := match processOne reg with
      | .ok w => w
      | .error _ => none
    let ws ← run_once rest
    match w? with
    | some w => .ok (w :: ws)
    | none => .ok ws

/-! ### Helper lemmas -/

theorem totalSize_append (a b : List FileEntry) :
    totalSize (a ++ b) = totalSize a + totalSize b := by
  simp [totalSize]

theorem totalSize_perm {a b : List FileEntry} (h : a.Perm b) :
    totalSize a = totalSize b :=
  (h.map FileEntry.size).sum_eq

/-- The deletion loop of MaxSize deletes a front segment of the sorted
list: the deleted entries are `files.take count`, the freed bytes are
their total size, the loop either reaches the cap or exhausts the list,
and it never deletes once the running total is within the cap. -/
theorem maxSizeLoop_spec (max_bytes : Int) (files : List FileEntry) (current : Int) :
    (maxSizeLoop max_bytes files current).2.2 =
      files.take (maxSizeLoop max_bytes files current).1 ∧
    (maxSizeLoop max_bytes files current).2.1 =
      totalSize (maxSizeLoop max_bytes files current).2.2 ∧
    (current - ((maxSizeLoop max_bytes files current).2.1 : Int) ≤ max_bytes ∨
      (maxSizeLoop max_bytes files current).2.2 = files) ∧
    (∀ j < (maxSizeLoop max_bytes files current).1,
      max_bytes < current - (totalSize (files.take j) : Int)) ∧
    (maxSizeLoop max_bytes files current).1 =
      (maxSizeLoop max_bytes files current).2.2.length := by
  induction files generalizing current with
  | nil =>
    refine ⟨rfl, rfl, Or.inr rfl, ?_, rfl⟩
    intro j hj
    simp [maxSizeLoop] at hj
  | cons f rest ih =>
    by_cases hc : current ≤ max_bytes
    · refine ⟨?_, ?_, Or.inl ?_, ?_, ?_⟩
      · simp [maxSizeLoop, hc]
      · simp [maxSizeLoop, hc, totalSize]
      · simp [maxSizeLoop, hc]
      · intro j hj
        simp [maxSizeLoop, hc] at hj
      · simp [maxSizeLoop, hc]
    · obtain ⟨h1, h2, h3, h4, h5⟩ := ih (current - (f.size : Int))
      refine ⟨?_, ?_, ?_, ?_, ?_⟩
      · simp only [maxSizeLoop, if_neg hc]
        simpa using h1
      · simp only [maxSizeLoop, if_neg hc]
        simp [totalSize] at h2 ⊢
        omega
      · rcases h3 with h3 | h3
        · left
          simp only [maxSizeLoop, if_neg hc]
          push_cast at h3 ⊢
          omega
        · right
          simp [maxSizeLoop, if_neg hc, h3]
      · intro j hj
        match j with
        | 0 =>
          simp [totalSize]
          omega
        | j + 1 =>
          simp only [maxSizeLoop, if_neg hc] at hj
          have := h4 j (by omega)
          simp [totalSize] at this ⊢
          omega
      · simp only [maxSizeLoop, if_neg hc, List.length_cons]
        omega

/-- The scan loop of RemoveBeforeDate computes exactly the filter by
`mtime < threshold`, with its length and total size. -/
theorem removeBeforeLoop_spec (threshold : Int) (files : List FileEntry) :
    removeBeforeLoop threshold files =
      ((files.filter (fun f => decide (f.mtime < threshold))).length,
       totalSize (files.filter (fun f => decide (f.mtime < threshold))),
       files.filter (fun f => decide (f.mtime < threshold))) := by
  induction files with
  | nil => rfl
  | cons f rest ih =>
    by_cases hf : f.mtime < threshold <;>
      simp [removeBeforeLoop, ih, List.filter_cons, hf, totalSize, Nat.add_comm]

/-- When the listing `l` has distinct file identities and is a
permutation of `a ++ b`, deleting the entries of `b` leaves exactly the
entries of `a` (up to permutation). -/
theorem remainingAfter_perm {l a b : List FileEntry}
    (hnd : (l.map FileEntry.path).Nodup) (hperm : l.Perm (a ++ b)) :
    (remainingAfter l b).Perm a := by
  have hnd' : ((a ++ b).map FileEntry.path).Nodup :=
    ((hperm.map FileEntry.path).nodup_iff).mp hnd
  rw [List.map_append] at hnd'
  have hdisj := (List.nodup_append.mp hnd').2.2
  have hfil : (remainingAfter l b).Perm
      ((a ++ b).filter (fun f => b.all (fun d => d.path != f.path))) :=
    hperm.filter _
  rw [List.filter_append] at hfil
  have hbnil : b.filter (fun f => b.all (fun d => d.path != f.path)) = [] := by
    apply List.filter_eq_nil_iff.mpr
    intro d hd
    simp only [List.all_eq_true, bne_iff_ne, ne_eq, not_forall]
    exact ⟨d, hd, by simp⟩
  have haself : a.filter (fun f => b.all (fun d => d.path != f.path)) = a := by
    apply List.filter_eq_self.mpr
    intro f hf
    simp only [List.all_eq_true, bne_iff_ne, ne_eq]
    intro d hd hdf
    exact hdisj (List.mem_map_of_mem _ hf) (hdf ▸ List.mem_map_of_mem _ hd)
  rw [hbnil, haself, List.append_nil] at hfil
  exact hfil

theorem maxSizeSortFiles_perm (sort_by : String) (files : List FileEntry) :
    (maxSizeSortFiles sort_by files).Perm files := by
  unfold maxSizeSortFiles
  split
  · exact List.perm_insertionSort _ _
  · split <;> exact List.perm_insertionSort _ _

theorem keepNSortFiles_perm (sort_by : String) (files : List FileEntry) :
    (keepNSortFiles sort_by files).Perm files := by
  unfold keepNSortFiles
  split
  · exact List.perm_insertionSort _ _
  · split <;> exact List.perm_insertionSort _ _

/-! ### Claims -/

/-- C1. MaxSize convergence: for any target and any `params` whose
`max_bytes` coerces to a positive integer, whenever `clean` returns a
result, the total size of the files remaining on disk is at most
`max_bytes`. This holds for every `sort_by` (in particular for each
valid one) and needs no totality escape hatch: with a positive cap,
removing every file always reaches it. -/
theorem maxSize_convergence
    (st : PathState) (params : Params) (max_bytes : Int)
    (res : CleanupResult) (deleted : List FileEntry)
    (hmb : pyInt (pyOr (params.get "max_bytes") (.vInt 0)) = .ok max_bytes)
    (hpos : 0 < max_bytes)
    (hnd : ((iter_files st).map FileEntry.path).Nodup)
    (hrun : MaxSizeAlgorithm.clean st params = .ok (res, deleted)) :
    (totalSize (remainingAfter (iter_files st) deleted) : Int) ≤ max_bytes := by
  simp only [MaxSizeAlgorithm.clean, hmb, bind, Except.bind,
    if_neg (not_le.mpr hpos)] at hrun
  by_cases hemp : iter_files st = []
  · rw [if_pos hemp] at hrun
    rw [Except.ok.injEq, Prod.mk.injEq] at hrun
    rw [hemp, ← hrun.2]
    simp [remainingAfter, totalSize]
    omega
  · rw [if_neg hemp] at hrun
    rw [Except.ok.injEq, Prod.mk.injEq] at hrun
    obtain ⟨h1, h2, h3, -, -⟩ := maxSizeLoop_spec max_bytes
      (maxSizeSortFiles (strLower (pyStr (pyOr (params.get "sort_by") (.vStr "mtime"))))
        (iter_files st))
      ((totalSize (maxSizeSortFiles
        (strLower (pyStr (pyOr (params.get "sort_by") (.vStr "mtime")))) (iter_files st)) : Int))
    set sorted := maxSizeSortFiles
      (strLower (pyStr (pyOr (params.get "sort_by") (.vStr "mtime")))) (iter_files st)
      with hsorted
    set L := maxSizeLoop max_bytes sorted ((totalSize sorted : Int)) with hL
    have hdel : deleted = sorted.take L.1 := by rw [← hrun.2, h1]
    have hperm : (remainingAfter (iter_files st) deleted).Perm (sorted.drop L.1) := by
      apply remainingAfter_perm hnd
      rw [hdel]
      have e1 : (iter_files st).Perm sorted := (maxSizeSortFiles_perm _ _).symm
      have e3 : sorted.Perm (sorted.drop L.1 ++ sorted.take L.1) := by
        conv_lhs => rw [← List.take_append_drop L.1 sorted]
        exact List.perm_append_comm
      exact e1.trans e3
    have htot : totalSize (remainingAfter (iter_files st) deleted) =
        totalSize (sorted.drop L.1) := totalSize_perm hperm
    have hsplit : totalSize sorted =
        totalSize (sorted.take L.1) + totalSize (sorted.drop L.1) := by
      conv_lhs => rw [← List.take_append_drop L.1 sorted]
      exact totalSize_append _ _
    have hfr : L.2.1 = totalSize (sorted.take L.1) := by rw [h2, h1]
    rw [htot]
    rcases h3 with h3 | h3
    · rw [hfr] at h3
      omega
    · have : totalSize (sorted.take L.1) = totalSize sorted := by rw [← h1, h3]
      have hzero : totalSize (sorted.drop L.1) = 0 := by omega
      rw [hzero]
      exact le_of_lt (by exact_mod_cast hpos)

theorem maxSize_convergence_witness :
    (0 : Int) < 250 ∧
    (totalSize (remainingAfter
      [⟨1, 100, 1, 1⟩, ⟨2, 100, 2, 2⟩, ⟨3, 100, 3, 3⟩] [⟨1, 100, 1, 1⟩]) : Int) ≤ 250 :=
  ⟨by decide,
    maxSize_convergence (.dir [⟨1, 100, 1, 1⟩, ⟨2, 100, 2, 2⟩, ⟨3, 100, 3, 3⟩])
      [("max_bytes", .vInt 250), ("sort_by", .vStr "mtime")] 250
      ⟨true, 1, 100⟩ [⟨1, 100, 1, 1⟩] (by rfl) (by decide) (by decide) (by rfl)⟩

/-- C8. MaxSize eviction order: `clean` deletes a front segment of the
file list ordered by the policy — ascending mtime for `mtime`, ascending
ctime for `ctime`, descending size for `size` — deleting only while the
running total still exceeds `max_bytes` (minimality) and stopping once
the cap is reached or the files run out; and in the concrete scenario of
three 100-byte files with increasing mtimes, `max_bytes = 250`,
`sort_by = mtime`, exactly the oldest file is removed with
`files_removed = 1`, `bytes_freed = 100` and 200 bytes remaining. -/
theorem maxSize_eviction_order
    (st : PathState) (params : Params) (max_bytes : Int)
    (res : CleanupResult) (deleted : List FileEntry)
    (hmb : pyInt (pyOr (params.get "max_bytes") (.vInt 0)) = .ok max_bytes)
    (hpos : 0 < max_bytes)
    (hrun : MaxSizeAlgorithm.clean st params = .ok (res, deleted)) :
    (∃ k,
      deleted = (maxSizeSortFiles
        (strLower (pyStr (pyOr (params.get "sort_by") (.vStr "mtime"))))
        (iter_files st)).take k ∧
      res.files_removed = k ∧
      (res.bytes_freed : Int) = totalSize deleted ∧
      (∀ j < k, max_bytes <
        (totalSize (maxSizeSortFiles
          (strLower (pyStr (pyOr (params.get "sort_by") (.vStr "mtime"))))
          (iter_files st)) : Int) -
        (totalSize ((maxSizeSortFiles
          (strLower (pyStr (pyOr (params.get "sort_by") (.vStr "mtime"))))
          (iter_files st)).take j) : Int)) ∧
      ((totalSize (iter_files st) : Int) - (res.bytes_freed : Int) ≤ max_bytes ∨
        k = (iter_files st).length)) ∧
    (∀ l : List FileEntry,
      (maxSizeSortFiles "mtime" l).Sorted leMtime ∧
      (maxSizeSortFiles "ctime" l).Sorted leCtime ∧
      (maxSizeSortFiles "size" l).Sorted geSize) ∧
    MaxSizeAlgorithm.clean (.dir [⟨1, 100, 1, 1⟩, ⟨2, 100, 2, 2⟩, ⟨3, 100, 3, 3⟩])
      [("max_bytes", .vInt 250), ("sort_by", .vStr "mtime")] =
      .ok (⟨true, 1, 100⟩, [⟨1, 100, 1, 1⟩]) ∧
    totalSize (remainingAfter
      [⟨1, 100, 1, 1⟩, ⟨2, 100, 2, 2⟩, ⟨3, 100, 3, 3⟩] [⟨1, 100, 1, 1⟩]) = 200 := by
  refine ⟨?_, ?_, by rfl, by rfl⟩
  · simp only [MaxSizeAlgorithm.clean, hmb, bind, Except.bind,
      if_neg (not_le.mpr hpos)] at hrun
    by_cases hemp : iter_files st = []
    · rw [if_pos hemp] at hrun
      rw [Except.ok.injEq, Prod.mk.injEq] at hrun
      refine ⟨0, ?_, ?_, ?_, ?_, ?_⟩
      · rw [← hrun.2]
        simp
      · rw [← hrun.1]
      · rw [← hrun.1, ← hrun.2]
        simp [totalSize]
      · intro j hj
        omega
      · left
        rw [← hrun.1, hemp]
        simp [totalSize]
        omega
    · rw [if_neg hemp] at hrun
      rw [Except.ok.injEq, Prod.mk.injEq] at hrun
      obtain ⟨h1, h2, h3, h4, h5⟩ := maxSizeLoop_spec max_bytes
        (maxSizeSortFiles (strLower (pyStr (pyOr (params.get "sort_by") (.vStr "mtime"))))
          (iter_files st))
        ((totalSize (maxSizeSortFiles
          (strLower (pyStr (pyOr (params.get "sort_by") (.vStr "mtime"))))
          (iter_files st)) : Int))
      set sorted := maxSizeSortFiles
        (strLower (pyStr (pyOr (params.get "sort_by") (.vStr "mtime")))) (iter_files st)
        with hsorted
      set L := maxSizeLoop max_bytes sorted ((totalSize sorted : Int)) with hL
      have htoteq : totalSize sorted = totalSize (iter_files st) :=
        totalSize_perm (maxSizeSortFiles_perm _ _)
      refine ⟨L.1, ?_, ?_, ?_, ?_, ?_⟩
      · rw [← hrun.2, h1]
      · rw [← hrun.1]
      · rw [← hrun.1, ← hrun.2]
        exact_mod_cast h2
      · exact h4
      · rcases h3 with h3 | h3
        · left
          rw [← hrun.1]
          rw [htoteq] at h3
          exact h3
        · right
          rw [h5, h3]
          exact ((maxSizeSortFiles_perm _ _).length_eq)
  · intro l
    exact ⟨List.sorted_insertionSort _ _,
      by simp only [maxSizeSortFiles, if_neg (by decide : ¬ ("ctime" = "size")), if_pos rfl]
         exact List.sorted_insertionSort _ _,
      by simp only [maxSizeSortFiles, if_pos rfl]
         exact List.sorted_insertionSort _ _⟩

theorem maxSize_eviction_order_witness :
    (0 : Int) < 250 ∧
    totalSize (remainingAfter
      [⟨1, 100, 1, 1⟩, ⟨2, 100, 2, 2⟩, ⟨3, 100, 3, 3⟩] [⟨1, 100, 1, 1⟩]) = 200 :=
  ⟨by decide,
    (maxSize_eviction_order (.dir [⟨1, 100, 1, 1⟩, ⟨2, 100, 2, 2⟩, ⟨3, 100, 3, 3⟩])
      [("max_bytes", .vInt 250), ("sort_by", .vStr "mtime")] 250
      ⟨true, 1, 100⟩ [⟨1, 100, 1, 1⟩] (by rfl) (by decide) (by rfl)).2.2.2⟩

/-- C2. With `max_bytes = 0` over a nonempty target,
`MaxSizeAlgorithm.should_clean` does NOT raise: the chained comparison
`total > max_bytes > 0` simply yields `False`, while `clean` does raise
the configuration error. The code thus contradicts the claim (and its
own test `test_max_size_should_clean_raises_for_non_positive_max_bytes`):
the two entry points do not surface the validation failure identically. -/
theorem maxSize_zero_cap_divergence :
    MaxSizeAlgorithm.should_clean (.dir [⟨1, 10, 1, 1⟩])
      [("max_bytes", .vInt 0), ("sort_by", .vStr "mtime")] = .ok false ∧
    MaxSizeAlgorithm.clean (.dir [⟨1, 10, 1, 1⟩])
      [("max_bytes", .vInt 0), ("sort_by", .vStr "mtime")] =
      .error "max_bytes must be greater than 0" :=
  ⟨rfl, rfl⟩

/-- C3. An unrecognized `sort_by` is rejected by both entry points of
KeepNLatest (via `validate_sort_by`), but `MaxSizeAlgorithm` never
validates it: `should_clean` ignores it entirely and `clean` silently
falls into the default mtime branch and deletes a file — contradicting
the claim and the test `test_algorithms_raise_for_invalid_sort_by`. -/
theorem sort_by_validation_divergence :
    KeepNLatestAlgorithm.should_clean (.dir [⟨1, 10, 1, 1⟩])
      [("keep_count", .vInt 0), ("sort_by", .vStr "unknown")] =
      .error "Invalid sort_by unknown" ∧
    KeepNLatestAlgorithm.clean (.dir [⟨1, 10, 1, 1⟩])
      [("keep_count", .vInt 0), ("sort_by", .vStr "unknown")] =
      .error "Invalid sort_by unknown" ∧
    MaxSizeAlgorithm.should_clean (.dir [⟨1, 10, 1, 1⟩])
      [("max_bytes", .vInt 5), ("sort_by", .vStr "unknown")] = .ok true ∧
    MaxSizeAlgorithm.clean (.dir [⟨1, 10, 1, 1⟩])
      [("max_bytes", .vInt 5), ("sort_by", .vStr "unknown")] =
      .ok (⟨true, 1, 10⟩, [⟨1, 10, 1, 1⟩]) :=
  ⟨rfl, rfl, rfl, rfl⟩

/-- C4. KeepNLatest invariant: with a well-formed `keep_count ≥ 0` and a
valid `sort_by`, `clean` deletes exactly the slice of the
descending-sorted listing past the first `keep_count` entries, so
`min(original_count, keep_count)` files remain and they are precisely
the top-`keep_count` of the ranking; with `keep_count = 0` over two
files both are removed, `cleaned = true`, `files_removed = 2`. -/
theorem keepN_invariant
    (st : PathState) (params : Params) (keep_count : Int) (sb : String)
    (res : CleanupResult) (deleted : List FileEntry)
    (hkc : pyInt (pyOr (params.get "keep_count") (.vInt 0)) = .ok keep_count)
    (hnn : ¬ keep_count < 0)
    (hsb : validate_sort_by (pyStr (pyOr (params.get "sort_by") (.vStr "mtime"))) = .ok sb)
    (hnd : ((iter_files st).map FileEntry.path).Nodup)
    (hrun : KeepNLatestAlgorithm.clean st params = .ok (res, deleted)) :
    deleted = (keepNSortFiles sb (iter_files st)).drop keep_count.toNat ∧
    (remainingAfter (iter_files st) deleted).Perm
      ((keepNSortFiles sb (iter_files st)).take keep_count.toNat) ∧
    (remainingAfter (iter_files st) deleted).length =
      min (iter_files st).length keep_count.toNat ∧
    res.files_removed = deleted.length ∧
    res.bytes_freed = totalSize deleted ∧
    res.cleaned = decide (0 < deleted.length) ∧
    KeepNLatestAlgorithm.clean (.dir [⟨1, 10, 1, 1⟩, ⟨2, 10, 2, 2⟩])
      [("keep_count", .vInt 0), ("sort_by", .vStr "mtime")] =
      .ok (⟨true, 2, 20⟩, [⟨2, 10, 2, 2⟩, ⟨1, 10, 1, 1⟩]) := by
  simp only [KeepNLatestAlgorithm.clean, hkc, hsb, bind, Except.bind, if_neg hnn] at hrun
  by_cases hemp : iter_files st = []
  · rw [if_pos hemp] at hrun
    rw [Except.ok.injEq, Prod.mk.injEq] at hrun
    have hsortnil : keepNSortFiles sb (iter_files st) = [] := by
      rw [hemp]
      exact (keepNSortFiles_perm sb []).eq_nil
    refine ⟨?_, ?_, ?_, ?_, ?_, ?_, by rfl⟩
    · rw [← hrun.2, hsortnil, List.drop_nil]
    · rw [← hrun.2, hsortnil, List.take_nil, hemp]
      rfl
    · rw [← hrun.2, hemp]
      simp [remainingAfter]
    · rw [← hrun.1, ← hrun.2]
      rfl
    · rw [← hrun.1, ← hrun.2]
      rfl
    · rw [← hrun.1, ← hrun.2]
      rfl
  · rw [if_neg hemp] at hrun
    rw [Except.ok.injEq, Prod.mk.injEq] at hrun
    set sorted := keepNSortFiles sb (iter_files st) with hsortedDef
    have hdel : deleted = sorted.drop keep_count.toNat := by rw [← hrun.2]
    have hperm : (remainingAfter (iter_files st) deleted).Perm
        (sorted.take keep_count.toNat) := by
      apply remainingAfter_perm hnd
      rw [hdel]
      have e1 : (iter_files st).Perm sorted := (keepNSortFiles_perm _ _).symm
      have e2 : sorted = sorted.take keep_count.toNat ++ sorted.drop keep_count.toNat :=
        (List.take_append_drop _ _).symm
      exact e1.trans (e2 ▸ List.Perm.refl sorted)
    refine ⟨hdel, hperm, ?_, ?_, ?_, ?_, by rfl⟩
    · rw [hperm.length_eq, List.length_take,
        ← (keepNSortFiles_perm sb (iter_files st)).length_eq, Nat.min_comm]
    · rw [← hrun.1, hdel]
    · rw [← hrun.1, hdel]
    · rw [← hrun.1, hdel]

theorem keepN_invariant_witness :
    ¬ (0 : Int) < 0 ∧
    (remainingAfter [⟨1, 10, 1, 1⟩, ⟨2, 10, 2, 2⟩]
      [⟨2, 10, 2, 2⟩, ⟨1, 10, 1, 1⟩]).length =
      min ([⟨1, 10, 1, 1⟩, ⟨2, 10, 2, 2⟩] : List FileEntry).length (0 : Int).toNat :=
  ⟨by decide,
    (keepN_invariant (.dir [⟨1, 10, 1, 1⟩, ⟨2, 10, 2, 2⟩])
      [("keep_count", .vInt 0), ("sort_by", .vStr "mtime")] 0 "mtime"
      ⟨true, 2, 20⟩ [⟨2, 10, 2, 2⟩, ⟨1, 10, 1, 1⟩]
      (by rfl) (by decide) (by rfl) (by decide) (by rfl)).2.2.1⟩

/-- C5. RemoveBeforeDate correctness: once the threshold resolves, the
files deleted by `clean` are exactly those whose modification time is
strictly earlier than the threshold — a listed file is deleted iff
`mtime < threshold`, so files at or after the threshold are preserved —
and `files_removed` counts and `bytes_freed` sums exactly the deleted
files. -/
theorem removeBeforeDate_correct
    (st : PathState) (params : Params) (now threshold : Int)
    (res : CleanupResult) (deleted : List FileEntry)
    (hth : parse_threshold params now = .ok threshold)
    (hrun : RemoveBeforeDateAlgorithm.clean st params now = .ok (res, deleted)) :
    deleted = (iter_files st).filter (fun f => decide (f.mtime < threshold)) ∧
    (∀ f ∈ iter_files st, (f ∈ deleted ↔ f.mtime < threshold)) ∧
    res.files_removed = deleted.length ∧
    res.bytes_freed = totalSize deleted ∧
    res.cleaned = decide (0 < deleted.length) := by
  simp only [RemoveBeforeDateAlgorithm.clean, hth, bind, Except.bind,
    removeBeforeLoop_spec] at hrun
  rw [Except.ok.injEq, Prod.mk.injEq] at hrun
  obtain ⟨hres, hdel⟩ := hrun
  refine ⟨hdel.symm, ?_, ?_, ?_, ?_⟩
  · intro f hf
    rw [← hdel]
    simp [List.mem_filter, hf]
  · rw [← hres, ← hdel]
  · rw [← hres, ← hdel]
  · rw [← hres, ← hdel]

theorem removeBeforeDate_correct_witness :
    parse_threshold [("max_age_days", PValue.vInt 0)] 50 = .ok 50 ∧
    ∀ f ∈ ([⟨1, 10, 0, 0⟩, ⟨2, 10, 100, 100⟩] : List FileEntry),
      (f ∈ ([⟨1, 10, 0, 0⟩] : List FileEntry) ↔ f.mtime < 50) :=
  ⟨by rfl,
    (removeBeforeDate_correct (.dir [⟨1, 10, 0, 0⟩, ⟨2, 10, 100, 100⟩])
      [("max_age_days", .vInt 0)] 50 50 ⟨true, 1, 10⟩ [⟨1, 10, 0, 0⟩]
      (by rfl) (by rfl)).2.1⟩

theorem any_regKey_false_mem {db : List Registration} {v p : String}
    (h : db.any (regKeyIs v p) = false) :
    ∀ r ∈ db, regKeyIs v p r = false := by
  intro r hr
  have := List.any_eq_false.mp h r hr
  simpa using this

/-- C6. Idempotent upsert: starting from a store without the key,
upserting `(volume_name, path)` at time `t₁` and again at time `t₂`
leaves exactly one row for that key; it carries `created_at = t₁`
(preserved from the first call), `updated_at = t₂` (set by the second),
and the second call's algorithm, params and description. The store grows
by exactly one row. -/
theorem upsert_registration_idempotent
    (db : List Registration) (volume_name path : String)
    (hnone : db.any (regKeyIs volume_name path) = false)
    (alg₁ pj₁ : String) (d₁ : Option String) (t₁ : Int)
    (alg₂ pj₂ : String) (d₂ : Option String) (t₂ : Int) :
    (upsert_registration (upsert_registration db volume_name path alg₁ pj₁ d₁ t₁)
        volume_name path alg₂ pj₂ d₂ t₂).filter (regKeyIs volume_name path) =
      [{ volume_name := volume_name, path := path, algorithm := alg₂,
         params_json := pj₂, description := d₂, created_at := t₁, updated_at := t₂,
         last_cleaned := none, files_removed_last_run := 0 }] ∧
    (upsert_registration (upsert_registration db volume_name path alg₁ pj₁ d₁ t₁)
        volume_name path alg₂ pj₂ d₂ t₂).length = db.length + 1 := by
  have hmem := any_regKey_false_mem hnone
  have hkey : regKeyIs volume_name path
      { volume_name := volume_name, path := path, algorithm := alg₁,
        params_json := pj₁, description := d₁, created_at := t₁, updated_at := t₁,
        last_cleaned := none, files_removed_last_run := 0 } = true := by
    simp [regKeyIs]
  have h1 : upsert_registration db volume_name path alg₁ pj₁ d₁ t₁ =
      db ++ [{ volume_name := volume_name, path := path, algorithm := alg₁,
               params_json := pj₁, description := d₁, created_at := t₁,
               updated_at := t₁, last_cleaned := none, files_removed_last_run := 0 }] := by
    rw [upsert_registration, if_neg (by simp [hnone])]
  have hany2 : (upsert_registration db volume_name path alg₁ pj₁ d₁ t₁).any
      (regKeyIs volume_name path) = true := by
    rw [h1, List.any_append]
    simp [hkey]
  have h2 : upsert_registration (upsert_registration db volume_name path alg₁ pj₁ d₁ t₁)
      volume_name path alg₂ pj₂ d₂ t₂ =
      db ++ [{ volume_name := volume_name, path := path, algorithm := alg₂,
               params_json := pj₂, description := d₂, created_at := t₁,
               updated_at := t₂, last_cleaned := none, files_removed_last_run := 0 }] := by
    rw [upsert_registration, if_pos (by rw [hany2]), h1, List.map_append]
    congr 1
    · apply List.map_congr_left (g := id) ?_ |>.trans (List.map_id db)
      intro r hr
      simp [hmem r hr]
    · simp [hkey]
  constructor
  · rw [h2, List.filter_append]
    have hdbnil : db.filter (regKeyIs volume_name path) = [] :=
      List.filter_eq_nil_iff.mpr (by intro r hr; simp [hmem r hr])
    rw [hdbnil, List.nil_append]
    rw [List.filter_cons, if_pos (by simp [regKeyIs])]
    rfl
  · rw [h2, List.length_append]
    rfl

theorem upsert_registration_idempotent_witness :
    ([] : List Registration).any (regKeyIs "vol" "data") = false ∧
    (upsert_registration (upsert_registration [] "vol" "data" "max_size" "{}" none 10)
        "vol" "data" "keep_n_latest" "{2}" (some "d") 20).filter (regKeyIs "vol" "data") =
      [{ volume_name := "vol", path := "data", algorithm := "keep_n_latest",
         params_json := "{2}", description := some "d", created_at := 10,
         updated_at := 20, last_cleaned := none, files_removed_last_run := 0 }] :=
  ⟨by rfl,
    (upsert_registration_idempotent [] "vol" "data" (by rfl)
      "max_size" "{}" none 10 "keep_n_latest" "{2}" (some "d") 20).1⟩

theorem run_once_eq_filterMap (regs : List TickReg) :
    run_once regs = .ok (regs.filterMap (fun r =>
      match processOne r with
      | .ok w => w
      | .error _ => none)) := by
  induction regs with
  | nil => rfl
  | cons r rest ih =>
    cases hp : processOne r with
    | ok w =>
      cases w <;> simp [run_once, ih, hp, List.filterMap_cons, bind, Except.bind]
    | error e =>
      simp [run_once, ih, hp, List.filterMap_cons, bind, Except.bind]

/-- C7. Tick isolation: if processing one registration raises at any
step inside the per-registration `try` (resolution, `should_clean`,
`clean` or the store write), `run_once` still evaluates every other
registration of the tick and persists their writes — the tick's writes
are exactly those of the list with the failing registration dropped —
and `run_once` itself never propagates an exception. -/
theorem run_once_isolation
    (pre post : List TickReg) (bad : TickReg) (e : String)
    (hbad : processOne bad = .error e) :
    run_once (pre ++ bad :: post) = run_once (pre ++ post) ∧
    ∃ ws, run_once (pre ++ bad :: post) = .ok ws := by
  constructor
  · rw [run_once_eq_filterMap, run_once_eq_filterMap]
    simp [List.filterMap_append, List.filterMap_cons, hbad]
  · exact ⟨_, run_once_eq_filterMap _⟩

theorem run_once_isolation_witness :
    processOne ⟨"v2", "p2", "max_size", .ok (some "/mnt/v2"), .error "boom",
      .ok ⟨true, 1, 5⟩, .ok ()⟩ = .error "boom" ∧
    run_once
      [⟨"v1", "p1", "max_size", .ok (some "/mnt/v1"), .ok true, .ok ⟨true, 2, 7⟩, .ok ()⟩,
       ⟨"v2", "p2", "max_size", .ok (some "/mnt/v2"), .error "boom",
        .ok ⟨true, 1, 5⟩, .ok ()⟩,
       ⟨"v3", "p3", "keep_n_latest", .ok (some "/mnt/v3"), .ok true,
        .ok ⟨true, 3, 9⟩, .ok ()⟩] =
      run_once
        [⟨"v1", "p1", "max_size", .ok (some "/mnt/v1"), .ok true, .ok ⟨true, 2, 7⟩, .ok ()⟩,
         ⟨"v3", "p3", "keep_n_latest", .ok (some "/mnt/v3"), .ok true,
          .ok ⟨true, 3, 9⟩, .ok ()⟩] :=
  ⟨by rfl,
    (run_once_isolation
      [⟨"v1", "p1", "max_size", .ok (some "/mnt/v1"), .ok true, .ok ⟨true, 2, 7⟩, .ok ()⟩]
      [⟨"v3", "p3", "keep_n_latest", .ok (some "/mnt/v3"), .ok true,
        .ok ⟨true, 3, 9⟩, .ok ()⟩]
      ⟨"v2", "p2", "max_size", .ok (some "/mnt/v2"), .error "boom",
        .ok ⟨true, 1, 5⟩, .ok ()⟩ "boom" (by rfl)).1⟩

/-- C9. Nothing-to-clean is not an error: a missing path lists as the
empty sequence and a single-file path as exactly that entry; over any
target whose listing is empty, all three algorithms' `clean` return
`cleaned = false`, `files_removed = 0`, `bytes_freed = 0` without
raising, provided only that the params pass validation. -/
theorem clean_empty_noop
    (st : PathState) (hemp : iter_files st = [])
    (pM pD pK : Params) (now mb th kc : Int) (sb : String)
    (hmb : pyInt (pyOr (pM.get "max_bytes") (.vInt 0)) = .ok mb) (hmbpos : 0 < mb)
    (hth : parse_threshold pD now = .ok th)
    (hkc : pyInt (pyOr (pK.get "keep_count") (.vInt 0)) = .ok kc) (hkcnn : ¬ kc < 0)
    (hsb : validate_sort_by (pyStr (pyOr (pK.get "sort_by") (.vStr "mtime"))) = .ok sb) :
    MaxSizeAlgorithm.clean st pM = .ok (⟨false, 0, 0⟩, []) ∧
    RemoveBeforeDateAlgorithm.clean st pD now = .ok (⟨false, 0, 0⟩, []) ∧
    KeepNLatestAlgorithm.clean st pK = .ok (⟨false, 0, 0⟩, []) ∧
    iter_files .missing = [] ∧
    (∀ entry, iter_files (.file entry) = [entry]) := by
  refine ⟨?_, ?_, ?_, rfl, fun _ => rfl⟩
  · simp [MaxSizeAlgorithm.clean, hmb, bind, Except.bind,
      if_neg (not_le.mpr hmbpos), hemp]
  · simp [RemoveBeforeDateAlgorithm.clean, hth, bind, Except.bind, hemp,
      removeBeforeLoop]
  · simp [KeepNLatestAlgorithm.clean, hkc, hsb, bind, Except.bind, if_neg hkcnn, hemp]

theorem clean_empty_noop_witness :
    iter_files .missing = [] ∧
    MaxSizeAlgorithm.clean .missing [("max_bytes", .vInt 10)] = .ok (⟨false, 0, 0⟩, []) :=
  ⟨rfl,
    (clean_empty_noop .missing (by rfl)
      [("max_bytes", .vInt 10)] [("max_age_days", .vInt 1)] [("keep_count", .vInt 1)]
      100000 10 (100000 - 1 * 86400) 1 "mtime"
      (by rfl) (by decide) (by rfl) (by rfl) (by decide) (by rfl)).1⟩

/-- C10. A missing or falsy `keep_count` (absent key, `None`, `0`, or
the empty string) is coerced to 0 by `int(params.get("keep_count") or
0)`: both entry points accept it without a missing-parameter error,
`should_clean` reports whether any file exists, and `clean` deletes
every file (the kept slice is empty). -/
theorem keepN_falsy_keep_count
    (st : PathState) (v : PValue)
    (hv : v = .vNone ∨ v = .vInt 0 ∨ v = .vStr "") :
    ∀ p ∈ [([] : Params), [("keep_count", v)]],
      KeepNLatestAlgorithm.should_clean st p =
        .ok (decide (0 < (iter_files st).length)) ∧
      KeepNLatestAlgorithm.clean st p =
        .ok (⟨decide (0 < (iter_files st).length), (iter_files st).length,
              totalSize (iter_files st)⟩,
             keepNSortFiles "mtime" (iter_files st)) := by
  have hlen := (keepNSortFiles_perm "mtime" (iter_files st)).length_eq
  have htot := totalSize_perm (keepNSortFiles_perm "mtime" (iter_files st))
  have hint : pyInt (PValue.vInt 0) = .ok 0 := rfl
  have hval : validate_sort_by (pyStr (PValue.vStr "mtime")) = .ok "mtime" := rfl
  intro p hp
  have hp' : p = [] ∨ p = [("keep_count", v)] := by simpa using hp
  have hpv : (pyOr (Params.get p "keep_count") (.vInt 0)) = .vInt 0 := by
    rcases hp' with hp' | hp' <;> subst hp'
    · rfl
    · rcases hv with hv | hv | hv <;> subst hv <;> rfl
  have hsb : (pyOr (Params.get p "sort_by") (.vStr "mtime")) = .vStr "mtime" := by
    rcases hp' with hp' | hp' <;> subst hp' <;> rfl
  constructor
  · simp only [KeepNLatestAlgorithm.should_clean, hpv, hsb, hint, hval, bind, Except.bind]
    rw [if_neg (by decide : ¬ (0 : Int) < 0), Except.ok.injEq,
      decide_eq_decide.mpr Int.natCast_pos]
  · simp only [KeepNLatestAlgorithm.clean, hpv, hsb, hint, hval, bind, Except.bind]
    rw [if_neg (by decide : ¬ (0 : Int) < 0)]
    by_cases hemp : iter_files st = []
    · rw [if_pos hemp, hemp]
      rfl
    · rw [if_neg hemp]
      simp only [Int.toNat_zero, List.drop_zero, hlen, htot]

theorem keepN_falsy_keep_count_witness :
    (PValue.vNone = PValue.vNone ∨ PValue.vNone = PValue.vInt 0 ∨
      PValue.vNone = PValue.vStr "") ∧
    KeepNLatestAlgorithm.clean (.dir [⟨1, 10, 1, 1⟩]) [("keep_count", PValue.vNone)] =
      .ok (⟨true, 1, 10⟩, [⟨1, 10, 1, 1⟩]) :=
  ⟨Or.inl rfl,
    ((keepN_falsy_keep_count (.dir [⟨1, 10, 1, 1⟩]) PValue.vNone (Or.inl rfl))
      [("keep_count", PValue.vNone)] (by simp)).2⟩

end StorageManager
